import Mathlib

/-!
Shallow embedding of `src/client/dual_client.py`, the hierarchical
round-aggregation client of this repository, together with proofs of the
specification's claims about it.

Modelling conventions:
* numpy float64 values are modelled as exact rationals (`ℚ`); the spec's
  floating-point-tolerance caveats become exact equalities;
* a numpy ndarray is a `Tensor`: a shape together with its flattened data;
* Python exceptions are modelled by `Except PyErr`; a list comprehension or
  loop that can raise is an `exMap`, which evaluates left to right and
  stops at the first exception, exactly as Python does;
* the global `net` is threaded explicitly as a `ParamSet` value;
  `torch.tensor` / `state_dict` conversions in `set_parameters` /
  `get_parameters` are value-preserving and are modelled as the identity.
-/

namespace DualClient

/-- A numpy ndarray: its shape and its flattened float data (floats
modelled as exact rationals). -/
structure Tensor where
  shape : List Nat
  data : List ℚ
deriving DecidableEq

/-- A model's full parameter state: an ordered list of tensors, as produced
by `get_parameters` (one ndarray per `state_dict` entry). -/
abbrev ParamSet := List Tensor

/-- Default tensor used to express Python indexing (`getD _ t0` below is
only ever read at indices proved in range). -/
def t0 : Tensor := ⟨[], []⟩

/-- The Python exceptions that the embedded code can raise. -/
inductive PyErr
  | typeError
  | indexError
  | valueError
deriving DecidableEq

/-- The fragment of Python values needed to model `len(self.num_clients)`:
`num_clients` is an `int` at runtime, while `len` only accepts sequences. -/
inductive PyVal
  | int (i : Int)
  | list (n : Nat)
deriving DecidableEq

instance {ε α : Type} [DecidableEq ε] [DecidableEq α] : DecidableEq (Except ε α)
  | .error e, .error f =>
    if h : e = f then .isTrue (by rw [h]) else .isFalse (by simp [h])
  | .error _, .ok _ => .isFalse (by simp)
  | .ok _, .error _ => .isFalse (by simp)
  | .ok a, .ok b =>
    if h : a = b then .isTrue (by rw [h]) else .isFalse (by simp [h])

/-- Python's `len`: defined on sequences, raises `TypeError` on an `int`
(`TypeError: object of type 'int' has no len()`). -/
def pyLen : PyVal → Except PyErr Nat
  | .int _ => .error .typeError
  | .list n => .ok n

/-- Sequential effectful map over a list, mirroring a Python loop or list
comprehension: elements are evaluated left to right and the first exception
aborts the whole computation. -/
def exMap {ε α β : Type} (f : α → Except ε β) : List α → Except ε (List β)
  | [] => .ok []
  | a :: l =>
    match f a with
    | .error e => .error e
    | .ok b =>
      match exMap f l with
      | .error e => .error e
      | .ok bs => .ok (b :: bs)

/-- Python list indexing `ps[i]`: raises `IndexError` when `i` is out of
range. -/
def pyIndex (ps : ParamSet) (i : Nat) : Except PyErr Tensor :=
  match ps.get? i with
  | some t => .ok t
  | none => .error .indexError

/-- Elementwise sum of the data rows of a stack of tensors, as flattened by
numpy: rows are added pointwise onto a zero row of the head tensor's data
length. -/
def sumRows (rows : List (List ℚ)) (len : Nat) : List ℚ :=
  rows.foldr (List.zipWith (· + ·)) (List.replicate len 0)

/-- Embedding of `np.mean(np.array(col), axis=0)` applied to a nonempty
column of tensors: `np.array` raises `ValueError` when the tensors'
shapes are inhomogeneous, otherwise the stack's mean along axis 0 is the
elementwise arithmetic mean.  An empty column cannot arise in `agg`
(`param_list` is nonempty there whenever the column loop is reached). -/
def npStackMean : List Tensor → Except PyErr Tensor
  | [] => .error .valueError
  | t :: ts =>
    if ts.all (fun u => u.shape = t.shape) then
      .ok ⟨t.shape,
        (sumRows ((t :: ts).map Tensor.data) t.data.length).map
          (· / ((ts.length + 1 : Nat) : ℚ))⟩
    else .error .valueError

/-- Embedding of `agg` (dual_client.py lines 56-61):

    def agg(param_list):
        final_params = []
        for i in range(len(param_list[0])):
            final_params.append(np.mean(np.array(
                [param_list[j][i] for j in range(len(param_list))]), axis=0))
        return final_params

`param_list[0]` raises `IndexError` on an empty argument; inside the loop
the comprehension is evaluated first (so an out-of-range `param_list[j][i]`
raises `IndexError`), then `np.array` raises `ValueError` on inhomogeneous
shapes. -/
def agg (param_list : List ParamSet) : Except PyErr ParamSet :=
  match param_list with
  | [] => .error .indexError
  | p0 :: rest =>
    exMap (fun i =>
      match exMap (fun ps => pyIndex ps i) (p0 :: rest) with
      | .error e => .error e
      | .ok col => npStackMean col) (List.range p0.length)

/-- Shape-signature compatibility of a collection of parameter sets: any
two member sets list the same tensor shapes in the same order. -/
abbrev SameSig (pl : List ParamSet) : Prop :=
  ∀ ps ∈ pl, ∀ qs ∈ pl, ps.map Tensor.shape = qs.map Tensor.shape

/-- A tensor is well formed when its flattened data has exactly as many
entries as its shape prescribes — every genuine ndarray satisfies this. -/
abbrev WfTensor (t : Tensor) : Prop := t.data.length = t.shape.prod

/-- All tensors of all member sets are well formed. -/
abbrev WfAll (pl : List ParamSet) : Prop := ∀ ps ∈ pl, ∀ t ∈ ps, WfTensor t

/-- The specification's description of unweighted aggregation, written from
its words alone: the tensor at position `i` has the common shape and, at
flat index `k`, the arithmetic mean over all input sets of the entries at
that position. -/
def specTensor (pl : List ParamSet) (i : Nat) : Tensor :=
  ⟨((pl.headD []).getD i t0).shape,
    (List.range ((pl.headD []).getD i t0).shape.prod).map (fun k =>
      (pl.map (fun ps => ((ps.getD i t0).data).getD k 0)).sum /
        (pl.length : ℚ))⟩

/-- The specification's aggregate: one mean tensor per position of the
first input set. -/
def specMean (pl : List ParamSet) : ParamSet :=
  (List.range (pl.headD []).length).map (specTensor pl)

namespace Wire

/-- Modelled from the spec: the Transport Codec of §4.1 is absent from the
source (`fit` reads with a bare `conn.recv()` and the comment "Should also
receive len", so no framing code exists under src/).  Following the spec's
words: a frame is a fixed-width length field followed by a serialized
tensor sequence — a tensor count, then per-tensor shape and element data in
a fixed numeric width.  Here length fields, counts and shape dimensions are
32-bit words and elements are 64-bit words (IEEE-754 float64 bit patterns,
left uninterpreted), all little-endian; a byte is a `Nat` below 256.  A
wire tensor carries its shape and its flattened element words. -/
structure WTensor where
  shape : List Nat
  data : List Nat
deriving DecidableEq

/-- A parameter set as shipped on the wire. -/
abbrev WParamSet := List WTensor

/-- Little-endian encoding of a word into a fixed number of bytes. -/
def toLE : Nat → Nat → List Nat
  | 0, _ => []
  | n + 1, w => w % 256 :: toLE n (w / 256)

/-- Little-endian decoding of a byte list back into a word. -/
def fromLE : List Nat → Nat
  | [] => 0
  | b :: bs => b + 256 * fromLE bs

/-- Read one fixed-width word off the front of a byte stream, failing when
fewer than `n` bytes remain. -/
def readWord (n : Nat) (bs : List Nat) : Option (Nat × List Nat) :=
  if n ≤ bs.length then some (fromLE (bs.take n), bs.drop n) else none

/-- Run a reader a fixed number of times, threading the remaining bytes. -/
def readTimes {α : Type} (p : List Nat → Option (α × List Nat)) :
    Nat → List Nat → Option (List α × List Nat)
  | 0, bs => some ([], bs)
  | n + 1, bs =>
    match p bs with
    | none => none
    | some (a, bs') =>
      match readTimes p n bs' with
      | none => none
      | some (as, bs'') => some (a :: as, bs'')

/-- Serialize one tensor: rank, then the shape dimensions, then the
flattened element words. -/
def encodeTensor (t : WTensor) : List Nat :=
  toLE 4 t.shape.length ++ t.shape.flatMap (toLE 4) ++ t.data.flatMap (toLE 8)

/-- Parse one tensor, reading exactly as many element words as the declared
shape prescribes. -/
def decodeTensor (bs : List Nat) : Option (WTensor × List Nat) :=
  match readWord 4 bs with
  | none => none
  | some (rank, bs) =>
    match readTimes (readWord 4) rank bs with
    | none => none
    | some (shape, bs) =>
      match readTimes (readWord 8) shape.prod bs with
      | none => none
      | some (data, bs) => some (⟨shape, data⟩, bs)

/-- The frame payload: the tensor count followed by the tensors. -/
def encodeBody (ps : WParamSet) : List Nat :=
  toLE 4 ps.length ++ ps.flatMap encodeTensor

/-- Encode a parameter set as a self-delimiting frame: a fixed-width length
field followed by the payload. -/
def encode (ps : WParamSet) : List Nat :=
  toLE 4 (encodeBody ps).length ++ encodeBody ps

/-- Decode a complete frame: the declared length must match the bytes
actually present, and the payload must be consumed exactly. -/
def decode (bs : List Nat) : Option WParamSet :=
  match readWord 4 bs with
  | none => none
  | some (len, bs) =>
    if bs.length = len then
      match readWord 4 bs with
      | none => none
      | some (count, bs) =>
        match readTimes decodeTensor count bs with
        | none => none
        | some (ts, bs) => if bs.isEmpty then some ts else none
    else none

/-- A wire tensor is well formed when its rank and dimensions fit in 32-bit
fields, its elements fit in 64-bit words, and its data length agrees with
its shape — every framed float64 ndarray satisfies this. -/
abbrev WTensor.wf (t : WTensor) : Prop :=
  t.shape.length < 2 ^ 32 ∧ (∀ d ∈ t.shape, d < 2 ^ 32) ∧
    t.data.length = t.shape.prod ∧ ∀ w ∈ t.data, w < 2 ^ 64

/-- A parameter set fits in one frame when its tensor count and total
payload length fit the 32-bit fields and all its tensors are well formed. -/
abbrev wfFrame (ps : WParamSet) : Prop :=
  ps.length < 2 ^ 32 ∧ (encodeBody ps).length < 2 ^ 32 ∧ ∀ t ∈ ps, t.wf

end Wire

/-! Embedding of the round orchestration: `FlowerClient.fit` (lines
136-156) and `FlowerClient.evaluate` (lines 158-161).  The external Trainer
is an abstract function `trainFn` (`train(net, trainloader, epochs)` is an
in-place update of `net`, modelled as `net := trainFn net epochs`); the
external evaluator is `evalFn` returning `(loss, accuracy)`; the
subordinate connections are an abstract arrival queue `subs`, one entry per
connection `accept` can hand out — an entry's payload is never read,
because `conn.recv()` raises before any read (see `recvLoop`).  Outcome
records carry, besides the returned value
or the raised exception, the observable calls the claims speak about: the
epoch count handed to the Trainer and whether `listen` was called on the
node's server socket. -/

/-- Round configuration as the spec's example `{epochs: int}`; `fit` in the
source never reads it. -/
structure RoundConfig where
  epochs : Nat
deriving DecidableEq

/-- Per-round metrics dictionary, as returned in the third component of
`fit` and `evaluate`. -/
abbrev Metrics := List (String × ℚ)

/-- How a `fit` call can fail to return: a raised Python exception, or
blocking forever in `accept` when fewer subordinate connections arrive than
the loop demands. -/
inductive FitAbort
  | err (e : PyErr)
  | blocked
deriving DecidableEq

/-- Observable outcome of one `fit` call. -/
structure FitOutcome where
  trainEpochs : Nat
  listenCalled : Bool
  netParams : ParamSet
  result : Except FitAbort (ParamSet × Nat × Metrics)
deriving DecidableEq

/-- The collection loop of `fit` (lines 143-148), run for `n` iterations
against the arrival queue `subs`: each executed iteration first calls
`self.serversocket.accept()` — blocking forever when no connection
arrives — and then `client_agg_param = conn.recv()`.  CPython's
`socket.recv(bufsize[, flags])` requires its `bufsize` argument, so this
bare call raises `TypeError` on every executed iteration (and the source
has no frame decoder in any case, per the comment "Should also receive
len").  The loop can therefore complete only by running zero times,
yielding the empty `recv_params` list. -/
def recvLoop : Nat → List ParamSet → Except FitAbort (List ParamSet)
  | 0, _ => .ok []
  | _ + 1, [] => .error .blocked
  | _ + 1, _ :: _ => .error (.err .typeError)

/-- The remainder of `fit` after the loop bound has been computed (lines
142-156): run the collection loop, append `self.get_parameters()` (the
locally trained state) to whatever it collected, aggregate, set the model
to the aggregate and return it with `len(trainloader.dataset)` and an
empty metrics dict.  Because every executed loop iteration raises (see
`recvLoop`), this remainder can complete only when the loop runs zero
times, with `recv_params = [own]`. -/
def fitOkBranch (n : Nat) (subs : List ParamSet) (own : ParamSet)
    (localCount : Nat) : Except FitAbort (ParamSet × Nat × Metrics) :=
  match recvLoop n subs with
  | .error a => .error a
  | .ok recvParams =>
    match agg (recvParams ++ [own]) with
    | .error e => .error (.err e)
    | .ok newParams => .ok (newParams, localCount, [])

/-- Embedding of `FlowerClient.fit`: set the received parameters on the
model, train with the literal argument `epochs=1`, call
`self.serversocket.listen(self.num_clients)`, then compute the collection
loop bound as `range(len(self.num_clients))` — `num_clients` is the
integer parsed from the command line, so `len` raises `TypeError` here. -/
def fitModel (trainFn : ParamSet → Nat → ParamSet) (numClients : Int)
    (parameters : ParamSet) (config : RoundConfig) (subs : List ParamSet)
    (localCount : Nat) : FitOutcome :=
  let epochs := 1
  let trained := trainFn parameters epochs
  { trainEpochs := epochs
    listenCalled := true
    netParams := trained
    result :=
      match pyLen (.int numClients) with
      | .error e => .error (.err e)
      | .ok n => fitOkBranch n subs trained localCount }

/-- Observable outcome of one `evaluate` call. -/
structure EvalOutcome where
  listenCalled : Bool
  aggCalled : Bool
  netParams : ParamSet
  result : ℚ × Nat × Metrics
deriving DecidableEq

/-- Embedding of `FlowerClient.evaluate`: set the received parameters on
the model, run `test(net, testloader)` and return
`(loss, len(testloader.dataset), {"accuracy": accuracy})`.  The server
socket and the aggregator are never touched on this path. -/
def evaluateModel (evalFn : ParamSet → ℚ × ℚ) (testCount : Nat)
    (netBefore : ParamSet) (parameters : ParamSet) (config : RoundConfig) :
    EvalOutcome :=
  let net := parameters
  let la := evalFn net
  { listenCalled := false
    aggCalled := false
    netParams := net
    result := (la.1, testCount, [("accuracy", la.2)]) }

/-! From here on: theorems. -/

example : agg [[⟨[2], [1, 3]⟩], [⟨[2], [3, 5]⟩]] = .ok [⟨[2], [2, 4]⟩] := by
  norm_num [agg, exMap, pyIndex, npStackMean, sumRows, List.range_succ,
    List.replicate_succ]

example : agg [] = .error .indexError := rfl

/-! Basic lemmas about the effectful map and list indexing. -/

theorem exMap_ok {ε α β : Type} (f : α → Except ε β) (g : α → β) :
    ∀ l : List α, (∀ x ∈ l, f x = .ok (g x)) → exMap f l = .ok (l.map g)
  | [], _ => rfl
  | a :: l, h => by
    have ha : f a = .ok (g a) := h a (by simp)
    have hl := exMap_ok f g l (fun x hx => h x (by simp [hx]))
    simp [exMap, ha, hl]

theorem exMap_error {ε α β : Type} (f : α → Except ε β) (e : ε) :
    ∀ l : List α, (∀ x ∈ l, f x = .error e ∨ ∃ y, f x = .ok y) →
      (∃ x ∈ l, f x = .error e) → exMap f l = .error e
  | [], _, hex => by simp at hex
  | a :: l, h, hex => by
    rcases h a (by simp) with ha | ⟨y, hy⟩
    · simp [exMap, ha]
    · rcases hex with ⟨x, hx, hxe⟩
      rcases List.mem_cons.mp hx with rfl | hxl
      · rw [hxe] at hy; cases hy
      · have hl := exMap_error f e l (fun z hz => h z (by simp [hz]))
          ⟨x, hxl, hxe⟩
        simp [exMap, hy, hl]

theorem pyIndex_ok (ps : ParamSet) (i : Nat) (h : i < ps.length) :
    pyIndex ps i = .ok (ps.getD i t0) := by
  rcases hg : ps.get? i with _ | t
  · exact absurd (List.get?_eq_none.mp hg) (by omega)
  · simp [pyIndex, List.getD_eq_getElem?_getD, ← List.get?_eq_getElem?, hg]

/-! Pointwise lemmas about list arithmetic used by the aggregation proofs. -/

theorem getD_map {α β : Type} (f : α → β) (d : α) :
    ∀ (l : List α) (n : Nat), (l.map f).getD n (f d) = f (l.getD n d)
  | [], _ => rfl
  | _ :: _, 0 => rfl
  | _ :: l, n + 1 => getD_map f d l n

theorem getD_map_div (c : ℚ) : ∀ (l : List ℚ) (k : Nat),
    (l.map (· / c)).getD k 0 = l.getD k 0 / c
  | [], k => by simp
  | _ :: _, 0 => rfl
  | _ :: l, k + 1 => getD_map_div c l k

theorem getD_replicate_zero : ∀ (L k : Nat),
    (List.replicate L (0 : ℚ)).getD k 0 = 0
  | 0, _ => rfl
  | _ + 1, 0 => rfl
  | L + 1, k + 1 => getD_replicate_zero L k

theorem getD_zipWith_add : ∀ (xs ys : List ℚ) (k : Nat),
    k < xs.length → k < ys.length →
    (List.zipWith (· + ·) xs ys).getD k 0 = xs.getD k 0 + ys.getD k 0
  | [], _, k, hx, _ => absurd hx (by simp)
  | _ :: _, [], k, _, hy => absurd hy (by simp)
  | _ :: _, _ :: _, 0, _, _ => rfl
  | _ :: xs, _ :: ys, k + 1, hx, hy =>
    getD_zipWith_add xs ys k (by simpa using hx) (by simpa using hy)

theorem getD_range_map (v : Nat → ℚ) : ∀ (L k : Nat), k < L →
    ((List.range L).map v).getD k 0 = v k
  | 0, k, h => absurd h (by simp)
  | L + 1, 0, _ => by simp [List.range_succ_eq_map]
  | L + 1, k + 1, h => by
    rw [List.range_succ_eq_map]
    simp only [List.map_cons, List.map_map, List.getD_cons_succ]
    exact getD_range_map (fun n => v (n + 1)) L k (by omega)

theorem sumRows_cons (r : List ℚ) (rows : List (List ℚ)) (L : Nat) :
    sumRows (r :: rows) L = List.zipWith (· + ·) r (sumRows rows L) := rfl

theorem sumRows_length (L : Nat) : ∀ (rows : List (List ℚ)),
    (∀ r ∈ rows, r.length = L) → (sumRows rows L).length = L
  | [], _ => by simp [sumRows]
  | r :: rows, h => by
    have hr : r.length = L := h r (by simp)
    have ht := sumRows_length L rows (fun x hx => h x (by simp [hx]))
    simp [sumRows_cons, List.length_zipWith, hr, ht]

theorem sumRows_getD (L : Nat) : ∀ (rows : List (List ℚ)),
    (∀ r ∈ rows, r.length = L) → ∀ k, k < L →
    (sumRows rows L).getD k 0 = (rows.map (fun r => r.getD k 0)).sum
  | [], _, k, _ => by simp [sumRows, getD_replicate_zero]
  | r :: rows, h, k, hk => by
    have hr : r.length = L := h r (by simp)
    have ht := sumRows_getD L rows (fun x hx => h x (by simp [hx])) k hk
    have hlen := sumRows_length L rows (fun x hx => h x (by simp [hx]))
    rw [sumRows_cons, getD_zipWith_add r _ k (by omega) (by omega), ht]
    simp

theorem list_ext_getD {α : Type} (d : α) :
    ∀ (l₁ l₂ : List α), l₁.length = l₂.length →
      (∀ k, k < l₁.length → l₁.getD k d = l₂.getD k d) → l₁ = l₂
  | [], [], _, _ => rfl
  | [], _ :: _, h, _ => absurd h (by simp)
  | _ :: _, [], h, _ => absurd h (by simp)
  | a :: l₁, b :: l₂, h, hk => by
    have h0 : a = b := hk 0 (by simp)
    have ht := list_ext_getD d l₁ l₂ (by simpa using h)
      (fun k hkk => hk (k + 1) (by simpa using hkk))
    rw [h0, ht]

/-! Facts about shape signatures, and the normal form of `agg` on a
well-formed, signature-compatible, nonempty input. -/

theorem length_eq_of_sig {ps qs : ParamSet}
    (h : ps.map Tensor.shape = qs.map Tensor.shape) :
    ps.length = qs.length := by
  have := congrArg List.length h
  simpa using this

theorem shape_getD_eq_of_sig {ps qs : ParamSet}
    (h : ps.map Tensor.shape = qs.map Tensor.shape) (i : Nat) :
    (ps.getD i t0).shape = (qs.getD i t0).shape := by
  have h1 := getD_map Tensor.shape t0 ps i
  have h2 := getD_map Tensor.shape t0 qs i
  rw [← h1, ← h2, h]

theorem getD_mem {α : Type} (d : α) :
    ∀ (l : List α) (i : Nat), i < l.length → l.getD i d ∈ l
  | [], i, h => absurd h (by simp)
  | _ :: _, 0, _ => by simp
  | a :: l, i + 1, h => by
    have := getD_mem d l i (by simpa using h)
    rw [List.getD_cons_succ]
    exact List.mem_cons_of_mem a this

theorem agg_eq_specMean :
    ∀ (pl : List ParamSet), pl ≠ [] → SameSig pl → WfAll pl →
      agg pl = .ok (specMean pl)
  | [], h, _, _ => absurd rfl h
  | p0 :: rest, _, hsig, hwf => by
    have hp0 : p0 ∈ p0 :: rest := by simp
    show exMap _ (List.range p0.length) = _
    rw [specMean]
    apply exMap_ok
    intro i hi
    have hi' : i < p0.length := List.mem_range.mp hi
    have hidx : ∀ ps ∈ p0 :: rest, i < ps.length := fun ps hps => by
      rw [length_eq_of_sig (hsig ps hps p0 hp0)]; exact hi'
    have hcol : exMap (fun ps => pyIndex ps i) (p0 :: rest) =
        .ok ((p0 :: rest).map (fun ps => ps.getD i t0)) :=
      exMap_ok _ _ _ (fun ps hps => pyIndex_ok ps i (hidx ps hps))
    rw [hcol]
    show npStackMean ((p0 :: rest).map (fun ps => ps.getD i t0)) = _
    have hshape : ∀ u ∈ rest.map (fun ps => ps.getD i t0),
        u.shape = (p0.getD i t0).shape := by
      intro u hu
      rcases List.mem_map.mp hu with ⟨qs, hqs, rfl⟩
      exact shape_getD_eq_of_sig (hsig qs (by simp [hqs]) p0 hp0) i
    have hcond : ((rest.map (fun ps => ps.getD i t0)).all
        (fun u => u.shape = (p0.getD i t0).shape)) = true := by
      simp only [List.all_eq_true, decide_eq_true_eq]
      exact hshape
    rw [List.map_cons, npStackMean, hcond, if_pos rfl]
    have hcwf : (p0.getD i t0).data.length = (p0.getD i t0).shape.prod :=
      hwf p0 hp0 _ (getD_mem t0 p0 i hi')
    have hL : ∀ ps ∈ p0 :: rest,
        ((ps.getD i t0).data).length = (p0.getD i t0).data.length := by
      intro ps hps
      rw [hwf ps hps _ (getD_mem t0 ps i (hidx ps hps)),
        shape_getD_eq_of_sig (hsig ps hps p0 hp0) i, ← hcwf]
    have hrows : ∀ r ∈ ((p0.getD i t0) :: rest.map (fun ps => ps.getD i t0)).map
        Tensor.data, r.length = (p0.getD i t0).data.length := by
      intro r hr
      rcases List.mem_map.mp hr with ⟨u, hu, rfl⟩
      rcases List.mem_cons.mp hu with rfl | hu'
      · exact hL p0 hp0
      · rcases List.mem_map.mp hu' with ⟨ps, hps, rfl⟩
        exact hL ps (List.mem_cons_of_mem p0 hps)
    refine congrArg Except.ok ?_
    rw [specTensor]
    simp only [List.headD_cons]
    refine congrArg (Tensor.mk (p0.getD i t0).shape) ?_
    apply list_ext_getD (0 : ℚ)
    · rw [List.length_map,
        sumRows_length (p0.getD i t0).data.length _ hrows,
        List.length_map, List.length_range, hcwf]
    · intro k hk
      rw [List.length_map,
        sumRows_length (p0.getD i t0).data.length _ hrows] at hk
      rw [getD_map_div, sumRows_getD _ _ hrows k hk,
        getD_range_map _ _ k (by rw [← hcwf]; exact hk)]
      simp only [List.map_map, List.map_cons, List.sum_cons, Function.comp,
        List.length_map, List.length_cons]
      rfl

/-- The specification-side mean is invariant under permutation of the
input sets: sums and lengths are permutation invariants, and the common
shape signature pins the head's layout. -/
theorem specMean_perm (pl pl' : List ParamSet) (hperm : pl.Perm pl')
    (hsig : SameSig pl) : specMean pl = specMean pl' := by
  cases pl with
  | nil =>
    have : pl' = [] := hperm.nil_eq.symm
    rw [this]
  | cons p0 rest =>
    cases pl' with
    | nil => exact absurd hperm.length_eq (by simp)
    | cons q0 rest' =>
      have hq0 : q0 ∈ p0 :: rest := hperm.mem_iff.mpr (by simp)
      have hs : p0.map Tensor.shape = q0.map Tensor.shape :=
        hsig p0 (by simp) q0 hq0
      rw [specMean, specMean]
      simp only [List.headD_cons]
      rw [length_eq_of_sig hs]
      apply List.map_congr_left
      intro i _
      rw [specTensor, specTensor]
      simp only [List.headD_cons]
      rw [shape_getD_eq_of_sig hs i]
      refine congrArg _ ?_
      apply List.map_congr_left
      intro k _
      rw [(hperm.map (fun ps => ((ps.getD i t0).data).getD k 0)).sum_eq,
        hperm.length_eq]

theorem zipWith_add_replicate_zero : ∀ (d : List ℚ),
    List.zipWith (· + ·) d (List.replicate d.length 0) = d
  | [] => rfl
  | x :: d => by
    rw [List.length_cons, List.replicate_succ, List.zipWith_cons_cons,
      zipWith_add_replicate_zero d, add_zero]

theorem range_map_getD {α : Type} (d : α) : ∀ (l : List α),
    (List.range l.length).map (fun i => l.getD i d) = l
  | [] => rfl
  | a :: l => by
    rw [List.length_cons, List.range_succ_eq_map, List.map_cons]
    simp only [List.getD_cons_zero, List.map_map]
    rw [show ((fun i => (a :: l).getD i d) ∘ Nat.succ) =
      (fun i => l.getD i d) from rfl]
    rw [range_map_getD d l]

/-- Aggregating a singleton list returns its element unchanged: the mean of
one tensor is that tensor, exactly (even in float64, where dividing by one
is exact). -/
theorem agg_singleton (p : ParamSet) : agg [p] = .ok p := by
  show exMap _ (List.range p.length) = _
  have hstep : ∀ i ∈ List.range p.length,
      (match exMap (fun ps => pyIndex ps i) [p] with
        | .error e => .error e
        | .ok col => npStackMean col) = Except.ok (p.getD i t0) := by
    intro i hi
    have hi' : i < p.length := List.mem_range.mp hi
    have hcol : exMap (fun ps => pyIndex ps i) [p] =
        .ok ([p].map (fun ps => ps.getD i t0)) :=
      exMap_ok _ _ [p] (fun ps hps => by
        rcases List.mem_singleton.mp hps with rfl
        exact pyIndex_ok ps i hi')
    rw [hcol]
    show npStackMean [p.getD i t0] = _
    rw [npStackMean, List.all_nil, if_pos rfl]
    refine congrArg Except.ok ?_
    have : (p.getD i t0) = ⟨(p.getD i t0).shape, (p.getD i t0).data⟩ := rfl
    rw [this]
    refine congrArg (Tensor.mk (p.getD i t0).shape) ?_
    rw [List.map_cons, List.map_nil, sumRows_cons,
      show sumRows [] (p.getD i t0).data.length =
        List.replicate (p.getD i t0).data.length 0 from rfl,
      zipWith_add_replicate_zero]
    norm_num
  rw [exMap_ok _ _ _ hstep, range_map_getD]

/-- When every set has at least as many tensors as the first but the
tensors at some position within the first set's range disagree in shape,
`agg` fails with numpy's generic `ValueError` from `np.array` on a ragged
stack — there is no dedicated shape-mismatch error anywhere in the code. -/
theorem agg_error_of_shape_clash (p0 : ParamSet) (rest : List ParamSet)
    (hlen : ∀ ps ∈ p0 :: rest, p0.length ≤ ps.length)
    (hclash : ∃ i < p0.length, ∃ ps ∈ p0 :: rest,
      (ps.getD i t0).shape ≠ (p0.getD i t0).shape) :
    agg (p0 :: rest) = .error .valueError := by
  have hcol : ∀ i, i < p0.length →
      exMap (fun ps => pyIndex ps i) (p0 :: rest) =
        .ok ((p0 :: rest).map (fun ps => ps.getD i t0)) := fun i hi' =>
    exMap_ok _ _ _ (fun ps hps =>
      pyIndex_ok ps i (lt_of_lt_of_le hi' (hlen ps hps)))
  show exMap _ (List.range p0.length) = _
  apply exMap_error
  · intro i hi
    have hi' : i < p0.length := List.mem_range.mp hi
    rw [hcol i hi', List.map_cons]
    by_cases hcond : ((rest.map (fun ps => ps.getD i t0)).all
        (fun u => u.shape = (p0.getD i t0).shape)) = true
    · right
      exact ⟨_, by show npStackMean _ = _; rw [npStackMean, hcond, if_pos rfl]⟩
    · left
      show npStackMean _ = _
      rw [npStackMean, if_neg hcond]
  · rcases hclash with ⟨i, hi, ps, hps, hne⟩
    refine ⟨i, List.mem_range.mpr hi, ?_⟩
    rw [hcol i hi, List.map_cons]
    show npStackMean _ = _
    rw [npStackMean]
    have hfls : ¬ (((rest.map (fun ps => ps.getD i t0)).all
        (fun u => u.shape = (p0.getD i t0).shape)) = true) := by
      simp only [List.all_eq_true, decide_eq_true_eq]
      push_neg
      rcases List.mem_cons.mp hps with rfl | hps'
      · exact absurd rfl hne
      · exact ⟨ps.getD i t0, List.mem_map_of_mem _ hps', hne⟩
    rw [if_neg hfls]

namespace Wire

theorem toLE_length : ∀ (n w : Nat), (toLE n w).length = n
  | 0, _ => rfl
  | n + 1, w => by rw [toLE, List.length_cons, toLE_length n]

theorem fromLE_toLE : ∀ (n w : Nat), w < 256 ^ n → fromLE (toLE n w) = w
  | 0, w, h => by
    rw [pow_zero] at h
    simp [toLE, fromLE]
    omega
  | n + 1, w, h => by
    rw [toLE, fromLE, fromLE_toLE n (w / 256)
      (Nat.div_lt_of_lt_mul (by rw [pow_succ] at h; omega))]
    omega

theorem readWord_run (n w : Nat) (rest : List Nat) (h : w < 256 ^ n) :
    readWord n (toLE n w ++ rest) = some (w, rest) := by
  rw [readWord, if_pos (by rw [List.length_append, toLE_length]; omega)]
  rw [List.take_left' (toLE_length n w), List.drop_left' (toLE_length n w),
    fromLE_toLE n w h]

theorem readTimes_run {α : Type} (p : List Nat → Option (α × List Nat))
    (enc : α → List Nat) :
    ∀ (l : List α) (rest : List Nat),
      (∀ x ∈ l, ∀ r : List Nat, p (enc x ++ r) = some (x, r)) →
      readTimes p l.length (l.flatMap enc ++ rest) = some (l, rest)
  | [], rest, _ => rfl
  | a :: l, rest, h => by
    have ha := h a (by simp) (l.flatMap enc ++ rest)
    have hl := readTimes_run p enc l rest (fun x hx r => h x (by simp [hx]) r)
    simp only [List.length_cons, List.flatMap_cons, List.append_assoc,
      readTimes, ha, hl]

theorem decodeTensor_run (t : WTensor) (hwf : t.wf) (rest : List Nat) :
    decodeTensor (encodeTensor t ++ rest) = some (t, rest) := by
  obtain ⟨hrank, hdims, hlen, helts⟩ := hwf
  have h1 : readWord 4 (toLE 4 t.shape.length ++
      (t.shape.flatMap (toLE 4) ++ (t.data.flatMap (toLE 8) ++ rest))) =
      some (t.shape.length, t.shape.flatMap (toLE 4) ++
        (t.data.flatMap (toLE 8) ++ rest)) :=
    readWord_run 4 t.shape.length _ (by norm_num at hrank ⊢; omega)
  have h2 : readTimes (readWord 4) t.shape.length
      (t.shape.flatMap (toLE 4) ++ (t.data.flatMap (toLE 8) ++ rest)) =
      some (t.shape, t.data.flatMap (toLE 8) ++ rest) :=
    readTimes_run (readWord 4) (toLE 4) t.shape _
      (fun d hd r => readWord_run 4 d r (by
        have := hdims d hd
        norm_num at this ⊢
        omega))
  have h3 : readTimes (readWord 8) t.shape.prod
      (t.data.flatMap (toLE 8) ++ rest) = some (t.data, rest) := by
    rw [← hlen]
    exact readTimes_run (readWord 8) (toLE 8) t.data rest
      (fun w hw r => readWord_run 8 w r (by
        have := helts w hw
        norm_num at this ⊢
        omega))
  simp only [encodeTensor, List.append_assoc, decodeTensor, h1, h2, h3]

/-- Round-trip law of the transport codec: decoding an encoded frame yields
the original parameter set. -/
theorem decode_encode (ps : WParamSet) (h : wfFrame ps) :
    decode (encode ps) = some ps := by
  obtain ⟨hcount, hbody, htens⟩ := h
  have h1 : readWord 4 (toLE 4 (encodeBody ps).length ++ encodeBody ps) =
      some ((encodeBody ps).length, encodeBody ps) :=
    readWord_run 4 _ _ (by norm_num at hbody ⊢; omega)
  have h2 : readWord 4 (encodeBody ps) =
      some (ps.length, ps.flatMap encodeTensor) := by
    rw [encodeBody]
    exact readWord_run 4 _ _ (by norm_num at hcount ⊢; omega)
  have h3 : readTimes decodeTensor ps.length (ps.flatMap encodeTensor) =
      some (ps, []) := by
    rw [show ps.flatMap encodeTensor = ps.flatMap encodeTensor ++ [] by simp]
    exact readTimes_run decodeTensor encodeTensor ps []
      (fun t ht r => decodeTensor_run t (htens t ht) r)
  simp only [encode, decode, h1, h2, h3, eq_self_iff_true, if_true,
    List.isEmpty_nil]

end Wire

/-! Claim theorems. -/

/-- C1: the claim — a leaf node (`numChildren = 0`) given parameters `P0`
and a one-epoch config returns `(P1, localCount, {})` with no listen or
accept on the node's socket — is contradicted by the code: `fit` calls
`self.serversocket.listen` unconditionally and then raises `TypeError` at
`range(len(self.num_clients))`, so it never returns at all.  This theorem
evaluates the embedded `fit` at the failing input (`num_clients = 0`, one
tensor of parameters, a one-epoch config, local count 5). -/
theorem C1_leaf_fit_listens_and_raises :
    (fitModel (fun p _ => p) 0 [⟨[1], [1]⟩] ⟨1⟩ [] 5).listenCalled = true ∧
    (fitModel (fun p _ => p) 0 [⟨[1], [1]⟩] ⟨1⟩ [] 5).result =
      .error (.err .typeError) :=
  ⟨rfl, rfl⟩

/-- C2: decoding the transport-codec encoding of a parameter set yields it
back — the round-trip law of the length-prefixed frame format.  The codec
is modelled from the spec, since the source reads unframed bytes. -/
theorem C2_codec_roundtrip (ps : Wire.WParamSet) (h : Wire.wfFrame ps) :
    Wire.decode (Wire.encode ps) = some ps :=
  Wire.decode_encode ps h

/-- C2 witness: the round-trip law at a concrete one-tensor frame. -/
theorem C2_codec_roundtrip_witness :
    Wire.wfFrame [⟨[2], [3, 4]⟩] ∧
    Wire.decode (Wire.encode [⟨[2], [3, 4]⟩]) = some [⟨[2], [3, 4]⟩] :=
  ⟨by decide, C2_codec_roundtrip [⟨[2], [3, 4]⟩] (by decide)⟩

/-- C3: on a nonempty list of well-formed parameter sets with identical
shape signatures, unweighted aggregation returns the parameter set whose
tensor at each position is the elementwise arithmetic mean, over all input
sets, of the tensors at that position (`specMean`, written from the spec's
words). -/
theorem C3_agg_is_elementwise_mean (pl : List ParamSet) (h1 : pl ≠ [])
    (h2 : SameSig pl) (h3 : WfAll pl) : agg pl = .ok (specMean pl) :=
  agg_eq_specMean pl h1 h2 h3

/-- C3 witness: the mean law at two concrete compatible sets. -/
theorem C3_agg_is_elementwise_mean_witness :
    ([[⟨[2], [1, 3]⟩], [⟨[2], [3, 5]⟩]] : List ParamSet) ≠ [] ∧
    SameSig [[⟨[2], [1, 3]⟩], [⟨[2], [3, 5]⟩]] ∧
    WfAll [[⟨[2], [1, 3]⟩], [⟨[2], [3, 5]⟩]] ∧
    agg [[⟨[2], [1, 3]⟩], [⟨[2], [3, 5]⟩]] =
      .ok (specMean [[⟨[2], [1, 3]⟩], [⟨[2], [3, 5]⟩]]) :=
  ⟨by decide, by decide, by decide,
    C3_agg_is_elementwise_mean [[⟨[2], [1, 3]⟩], [⟨[2], [3, 5]⟩]]
      (by decide) (by decide) (by decide)⟩

/-- C4: whenever the post-training remainder of `fit` (lines 142-156)
completes, the sample count it reports upward is exactly the local
training-sample count `len(trainloader.dataset)`.  In this code no
subordinate submission ever declares a weight — indeed `conn.recv()`
raises before any payload is read, so the only completing executions
collect zero submissions — and the claim's fallback applies: the local
count alone.  (The whole of `fit` never completes at all; see C10.) -/
theorem C4_reported_count (n : Nat) (subs : List ParamSet) (own : ParamSet)
    (localCount : Nat) (r : ParamSet × Nat × Metrics)
    (h : fitOkBranch n subs own localCount = .ok r) : r.2.1 = localCount := by
  rw [fitOkBranch] at h
  split at h
  · cases h
  · split at h
    · cases h
    · cases h
      rfl

/-- C4 witness: the remainder's one completing shape — a zero-iteration
collection loop — with local count 7. -/
theorem C4_reported_count_witness :
    fitOkBranch 0 [] [⟨[1], [1]⟩] 7 = .ok ([⟨[1], [1]⟩], 7, []) ∧
    (([⟨[1], [1]⟩], 7, []) : ParamSet × Nat × Metrics).2.1 = 7 :=
  have h : fitOkBranch 0 [] [⟨[1], [1]⟩] 7 = .ok ([⟨[1], [1]⟩], 7, []) := by
    norm_num [fitOkBranch, recvLoop, agg, exMap, pyIndex, npStackMean,
      sumRows, List.range_succ, List.replicate_succ]
  ⟨h, C4_reported_count 0 [] [⟨[1], [1]⟩] 7 ([⟨[1], [1]⟩], 7, []) h⟩

/-- C5 counterexample: the claim says any disagreement in tensor count
fails with `ShapeMismatchError` rather than returning a merged result; but
on a two-set input whose sets have tensor counts 1 and 2, `agg` returns a
merged result over the first set's single position. -/
theorem C5_counterexample :
    ([[⟨[1], [1]⟩], [⟨[1], [3]⟩, ⟨[1], [5]⟩]] : List ParamSet).length ≥ 1 ∧
    ([⟨[1], [1]⟩] : ParamSet).length ≠
      ([⟨[1], [3]⟩, ⟨[1], [5]⟩] : ParamSet).length ∧
    agg [[⟨[1], [1]⟩], [⟨[1], [3]⟩, ⟨[1], [5]⟩]] = .ok [⟨[1], [2]⟩] := by
  refine ⟨by norm_num, by decide, ?_⟩
  norm_num [agg, exMap, pyIndex, npStackMean, sumRows, List.range_succ,
    List.replicate_succ]

/-- C5 amended: `agg` has no shape validation and no `ShapeMismatchError`
exists in the code.  When every set has at least as many tensors as the
first but tensors at some position within the first set's range disagree in
shape, `agg` fails with numpy's generic `ValueError` (from `np.array` on a
ragged stack); a disagreement only in tensor count with the first set
shortest goes undetected and yields a merged result (the counterexample
above). -/
theorem C5_amended_generic_error (p0 : ParamSet) (rest : List ParamSet)
    (hlen : ∀ ps ∈ p0 :: rest, p0.length ≤ ps.length)
    (hclash : ∃ i < p0.length, ∃ ps ∈ p0 :: rest,
      (ps.getD i t0).shape ≠ (p0.getD i t0).shape) :
    agg (p0 :: rest) = .error .valueError :=
  agg_error_of_shape_clash p0 rest hlen hclash

/-- C5 amended-claim witness: two singleton sets whose tensors have shapes
`[1]` and `[2]`. -/
theorem C5_amended_generic_error_witness :
    (∀ ps ∈ [[(⟨[1], [1]⟩ : Tensor)], [⟨[2], [1, 2]⟩]],
      ([⟨[1], [1]⟩] : ParamSet).length ≤ ps.length) ∧
    (∃ i < ([⟨[1], [1]⟩] : ParamSet).length,
      ∃ ps ∈ [[(⟨[1], [1]⟩ : Tensor)], [⟨[2], [1, 2]⟩]],
        (ps.getD i t0).shape ≠
          (([⟨[1], [1]⟩] : ParamSet).getD i t0).shape) ∧
    agg [[⟨[1], [1]⟩], [⟨[2], [1, 2]⟩]] = .error .valueError :=
  ⟨by decide, by decide,
    C5_amended_generic_error [⟨[1], [1]⟩] [[⟨[2], [1, 2]⟩]]
      (by decide) (by decide)⟩

/-- C6 counterexample: with a round config demanding 3 epochs, the embedded
`fit` hands the Trainer the literal epoch count 1
(`train(net, trainloader, epochs=1)`), not the config's. -/
theorem C6_counterexample :
    (fitModel (fun p _ => p) 0 [] ⟨3⟩ [] 0).trainEpochs ≠
      (⟨3⟩ : RoundConfig).epochs := by
  decide

/-- C6 amended: local training always runs exactly one epoch — the hard
coded `epochs=1` — for every round configuration. -/
theorem C6_amended_one_epoch (trainFn : ParamSet → Nat → ParamSet)
    (numClients : Int) (parameters : ParamSet) (config : RoundConfig)
    (subs : List ParamSet) (localCount : Nat) :
    (fitModel trainFn numClients parameters config subs
      localCount).trainEpochs = 1 :=
  rfl

/-- C7: `evaluate` sets the received parameters on the model, runs the
external evaluator on them, and returns
`(loss, sampleCount, {accuracy})`; it never touches the server socket and
never aggregates. -/
theorem C7_evaluate_path (evalFn : ParamSet → ℚ × ℚ) (testCount : Nat)
    (netBefore parameters : ParamSet) (config : RoundConfig) :
    (evaluateModel evalFn testCount netBefore parameters config).netParams =
      parameters ∧
    (evaluateModel evalFn testCount netBefore parameters config).result =
      ((evalFn parameters).1, testCount,
        [("accuracy", (evalFn parameters).2)]) ∧
    (evaluateModel evalFn testCount netBefore parameters
      config).listenCalled = false ∧
    (evaluateModel evalFn testCount netBefore parameters config).aggCalled =
      false :=
  ⟨rfl, rfl, rfl, rfl⟩

/-- C8: on a nonempty, signature-compatible, well-formed input, unweighted
aggregation yields the same output on any permutation of the list — exact
equality in this rational model, which is the float model's bit-identical
up to tolerance. -/
theorem C8_agg_perm_invariant (pl pl' : List ParamSet) (h1 : pl ≠ [])
    (h2 : SameSig pl) (h3 : WfAll pl) (hperm : pl.Perm pl') :
    agg pl = agg pl' := by
  have h1' : pl' ≠ [] := by
    intro h
    rw [h] at hperm
    exact h1 hperm.eq_nil
  have h2' : SameSig pl' := fun ps hps qs hqs =>
    h2 ps (hperm.mem_iff.mpr hps) qs (hperm.mem_iff.mpr hqs)
  have h3' : WfAll pl' := fun ps hps => h3 ps (hperm.mem_iff.mpr hps)
  rw [agg_eq_specMean pl h1 h2 h3, agg_eq_specMean pl' h1' h2' h3',
    specMean_perm pl pl' hperm h2]

/-- C8 witness: swapping a concrete two-set input. -/
theorem C8_agg_perm_invariant_witness :
    ([[⟨[1], [1]⟩], [⟨[1], [3]⟩]] : List ParamSet) ≠ [] ∧
    SameSig [[⟨[1], [1]⟩], [⟨[1], [3]⟩]] ∧
    WfAll [[⟨[1], [1]⟩], [⟨[1], [3]⟩]] ∧
    agg [[⟨[1], [1]⟩], [⟨[1], [3]⟩]] =
      agg [[⟨[1], [3]⟩], [⟨[1], [1]⟩]] :=
  ⟨by decide, by decide, by decide,
    C8_agg_perm_invariant [[⟨[1], [1]⟩], [⟨[1], [3]⟩]]
      [[⟨[1], [3]⟩], [⟨[1], [1]⟩]] (by decide) (by decide) (by decide)
      (List.Perm.swap ([⟨[1], [3]⟩] : ParamSet) ([⟨[1], [1]⟩] : ParamSet)
        [])⟩

/-- C9: aggregating the singleton list `[p]` returns `p` unchanged, for
every parameter set `p`. -/
theorem C9_agg_singleton_identity (p : ParamSet) : agg [p] = .ok p :=
  agg_singleton p

/-- C10: for every integer `num_clients`, every received parameter set,
config, subordinate queue and local count, `fit` completes local training
and then raises `TypeError` at the collection loop, whose bound is computed
as `len(self.num_clients)` — the length of an integer.  So `fit` never
returns a result. -/
theorem C10_fit_always_raises (trainFn : ParamSet → Nat → ParamSet)
    (numClients : Int) (parameters : ParamSet) (config : RoundConfig)
    (subs : List ParamSet) (localCount : Nat) :
    (fitModel trainFn numClients parameters config subs localCount).result =
      .error (.err .typeError) :=
  rfl

end DualClient
